import Mathlib

/-!
Verification development for the Polymarket spike-trading bot
(src/main.py).  The Python dictionaries of `BotState` are embedded as
association lists over `String` keys; Python floats (prices, times,
thresholds) are embedded as rationals; `deque(maxlen=N)` is embedded as a
list that drops its oldest elements past capacity.  Every operation below
is transcribed from the corresponding function of src/main.py.
-/

/-- Lookup in a Python-dict embedding: first entry whose key matches. -/
def dictLookup {α : Type} (d : List (String × α)) (k : String) : Option α :=
  (d.find? (fun p => p.1 == k)).map Prod.snd

/-- Insertion in a Python-dict embedding: `d[k] = v` replaces the value at
an existing key in place, otherwise appends the new binding. -/
def dictInsert {α : Type} (d : List (String × α)) (k : String) (v : α) :
    List (String × α) :=
  if (d.find? (fun p => p.1 == k)).isSome then
    d.map (fun p => if p.1 == k then (k, v) else p)
  else d ++ [(k, v)]

/-- Python `d.setdefault(k, v)`: insert only when the key is absent. -/
def dictSetdefault {α : Type} (d : List (String × α)) (k : String) (v : α) :
    List (String × α) :=
  if (d.find? (fun p => p.1 == k)).isSome then d else d ++ [(k, v)]

/-- Python `del d[k]` for a key known to be present (and a no-op when it is
not): drop every binding with that key. -/
def dictRemove {α : Type} (d : List (String × α)) (k : String) :
    List (String × α) :=
  d.filter (fun p => !(p.1 == k))

/-- Keys of a dict embedding, in insertion order. -/
def dictKeys {α : Type} (d : List (String × α)) : List String :=
  d.map Prod.fst

/-- MarketPair dataclass (src/main.py:92-96). -/
structure MarketPair where
  yes : String
  no : String
  liquidity : ℚ
deriving DecidableEq

/-- ActiveTrade dataclass (src/main.py:98-102). -/
structure ActiveTrade where
  asset : String
  entry_price : ℚ
  entry_time : ℚ
deriving DecidableEq

/-- The strategy configuration read from the environment
(src/main.py:47-68).  The four profit/loss thresholds `pct_profit`,
`cash_profit`, `pct_loss`, `cash_loss` default to `None` and are embedded
as `Option ℚ`; the remaining values are required. -/
structure Config where
  spike_threshold : ℚ
  price_history_size : Nat
  min_liquidity : ℚ
  cooldown_seconds : ℚ
  max_concurrent_trades : Nat
  trade_size_usdc : ℚ
  holding_time_limit : ℚ
  pct_profit : Option ℚ
  cash_profit : Option ℚ
  pct_loss : Option ℚ
  cash_loss : Option ℚ
  paper_trading : Bool

/-- One market record as returned by the market-data service, as consumed
by `market_scanner` (src/main.py:154-168): its token ids and its
liquidity (`float(m.get("liquidity", 0))`). -/
structure RawMarket where
  tokens : List String
  liquidity : ℚ
deriving DecidableEq

/-- The mutable fields of `BotState` (src/main.py:108-115) other than the
lock and the shutdown flag. -/
structure BotState where
  market_pairs : List (String × MarketPair)
  price_history : List (String × List ℚ)
  active_trades : List (String × ActiveTrade)
  cooldowns : List (String × ℚ)

/-- The freshly constructed `BotState` (src/main.py:109-115): every
collection empty. -/
def init_state : BotState :=
  { market_pairs := [], price_history := [], active_trades := [], cooldowns := [] }

/-- Appending to a `deque(maxlen := cap)`: add the sample at the right end
and drop from the left down to capacity (src/main.py:193 together with the
maxlen given at src/main.py:174). -/
def appendCap (cap : Nat) (h : List ℚ) (p : ℚ) : List ℚ :=
  let h2 := h ++ [p]
  h2.drop (h2.length - cap)

/-- The `env` loader (src/main.py:19-28).  `val` is the result of
`os.getenv(name)`; `cast` is the Python cast, embedded as a function
returning `none` where the cast would raise; raising
`RuntimeError` is embedded as `Except.error` carrying the message. -/
def env_load {α : Type} (name : String) (val : Option String)
    (cast : String → Option α) (default : Option α) (required : Bool) :
    Except String (Option α) :=
  match val with
  | none =>
      if required then .error ("Missing required env var: " ++ name)
      else .ok default
  | some s =>
      if s = "" then
        if required then .error ("Missing required env var: " ++ name)
        else .ok default
      else
        match cast s with
        | none => .error ("Invalid value for " ++ name ++ ": " ++ s)
        | some v => .ok (some v)

/-- Whether a market passes the `market_scanner` filter
(src/main.py:155-161): exactly two outcome tokens and liquidity at least
the configured minimum. -/
def qualifies (cfg : Config) (m : RawMarket) : Prop :=
  m.tokens.length = 2 ∧ cfg.min_liquidity ≤ m.liquidity

instance (cfg : Config) (m : RawMarket) : Decidable (qualifies cfg m) := by
  unfold qualifies; infer_instance

/-- The body of the `market_scanner` loop for one market
(src/main.py:154-178): skip unless exactly two tokens and enough
liquidity; otherwise store the pair under both token keys and ensure an
(initially empty) price history exists for both. -/
def upsert_market (cfg : Config) (st : BotState) (m : RawMarket) : BotState :=
  match m.tokens with
  | [y, n] =>
      if m.liquidity < cfg.min_liquidity then st
      else
        let pair : MarketPair := { yes := y, no := n, liquidity := m.liquidity }
        { st with
          market_pairs := dictInsert (dictInsert st.market_pairs y pair) n pair
          price_history := dictSetdefault (dictSetdefault st.price_history y []) n [] }
  | _ => st

/-- One full `market_scanner` cycle over a fetched market list
(src/main.py:152-178). -/
def market_scanner_scan (cfg : Config) (markets : List RawMarket)
    (st : BotState) : BotState :=
  markets.foldl (upsert_market cfg) st

/-- The body of the `price_updater` loop for one `(asset, price)` pair
(src/main.py:191-193): append only when the asset is tracked. -/
def append_price (cfg : Config) (st : BotState) (asset : String) (price : ℚ) :
    BotState :=
  match dictLookup st.price_history asset with
  | none => st
  | some h =>
      { st with
        price_history :=
          dictInsert st.price_history asset (appendCap cfg.price_history_size h price) }

/-- One full `price_updater` cycle over a fetched price mapping
(src/main.py:189-193). -/
def price_updater_scan (cfg : Config) (prices : List (String × ℚ))
    (st : BotState) : BotState :=
  prices.foldl (fun s p => append_price cfg s p.1 p.2) st

/-- The `compute_delta` function (src/main.py:199-205): `None` when fewer
than two samples or the earlier sample is not strictly positive, otherwise
`(curr - prev) / prev` over the two most recent samples. -/
def compute_delta (history : List ℚ) : Option ℚ :=
  match history.reverse with
  | curr :: prev :: _ => if prev ≤ 0 then none else some ((curr - prev) / prev)
  | _ => none

/-- The `place_buy` execution stub (src/main.py:211-214): logs and returns
`True` in both paper and live mode. -/
def place_buy (_paper_trading : Bool) (_asset : String) : Bool := true

/-- The `place_sell` execution stub (src/main.py:216-219): logs and
returns `True` in both paper and live mode. -/
def place_sell (_paper_trading : Bool) (_asset : String) : Bool := true

/-- The guard chain of `spike_detector` for one asset
(src/main.py:230-241): the four `continue`s negated, i.e. the entry is
attempted iff the delta is defined and at least the spike threshold, there
is no active trade for the asset, the cooldown (defaulting to 0 when the
asset has no cooldown entry) has elapsed, and the open-trade count is
strictly below the cap. -/
def spikeEntryCond (cfg : Config) (now : ℚ) (st : BotState) (asset : String)
    (history : List ℚ) : Bool :=
  match compute_delta history with
  | none => false
  | some delta =>
      decide (cfg.spike_threshold ≤ delta) &&
      (dictLookup st.active_trades asset).isNone &&
      decide (cfg.cooldown_seconds ≤ now - ((dictLookup st.cooldowns asset).getD 0)) &&
      decide (st.active_trades.length < cfg.max_concurrent_trades)

/-- The body of the `spike_detector` loop for one asset
(src/main.py:229-250): when the guard chain passes and `place_buy`
succeeds, record the ActiveTrade (entry price `history[-1]`, entry time
`now`) and set the cooldown timestamp to `now` in the same step. -/
def spikeStep (cfg : Config) (now : ℚ) (st : BotState) (asset : String)
    (history : List ℚ) : BotState :=
  if spikeEntryCond cfg now st asset history then
    if place_buy cfg.paper_trading asset then
      { st with
        active_trades :=
          dictInsert st.active_trades asset
            { asset := asset
              entry_price := (history.getLast?).getD 0
              entry_time := now }
        cooldowns := dictInsert st.cooldowns asset now }
    else st
  else st

/-- One full `spike_detector` cycle (src/main.py:227-250): iterate the
price histories (unchanged during the cycle), threading the trade and
cooldown updates. -/
def spike_detector_scan (cfg : Config) (now : ℚ) (st : BotState) : BotState :=
  st.price_history.foldl (fun s p => spikeStep cfg now s p.1 p.2) st

/-- The exit-reason selection chain of `exit_manager`
(src/main.py:272-283): first match wins; each of the four optional
thresholds is skipped when unconfigured (`None`); the holding-time limit
is a required setting and always checked last. -/
def exit_reason (cfg : Config) (pnl_pct pnl_cash held : ℚ) : Option String :=
  if (cfg.pct_profit.map (fun t => decide (t ≤ pnl_pct))).getD false then
    some "pct_profit"
  else if (cfg.cash_profit.map (fun t => decide (t ≤ pnl_cash))).getD false then
    some "cash_profit"
  else if (cfg.pct_loss.map (fun t => decide (pnl_pct ≤ t))).getD false then
    some "pct_loss"
  else if (cfg.cash_loss.map (fun t => decide (pnl_cash ≤ t))).getD false then
    some "cash_loss"
  else if cfg.holding_time_limit ≤ held then
    some "time"
  else none

/-- The exit decision of `exit_manager` for one trade
(src/main.py:263-283): skip when the asset has no (or an empty) price
history; otherwise compute pnl percentage, pnl cash and holding time from
the latest sample and select the exit reason. -/
def exitStepReason (cfg : Config) (now : ℚ) (st : BotState) (asset : String)
    (trade : ActiveTrade) : Option String :=
  match dictLookup st.price_history asset with
  | none => none
  | some history =>
      if history.isEmpty then none
      else
        let price := (history.getLast?).getD 0
        let pnl_pct := (price - trade.entry_price) / trade.entry_price
        let pnl_cash := pnl_pct * cfg.trade_size_usdc
        let held := now - trade.entry_time
        exit_reason cfg pnl_pct pnl_cash held

/-- The body of the `exit_manager` loop for one trade
(src/main.py:262-291): when an exit reason is selected and `place_sell`
succeeds, delete the trade. -/
def exitStep (cfg : Config) (now : ℚ) (st : BotState) (asset : String)
    (trade : ActiveTrade) : BotState :=
  match exitStepReason cfg now st asset trade with
  | none => st
  | some _ =>
      if place_sell cfg.paper_trading asset then
        { st with active_trades := dictRemove st.active_trades asset }
      else st

/-- One full `exit_manager` cycle (src/main.py:260-291): iterate a
snapshot (`list(...items())`) of the active trades, threading deletions. -/
def exit_manager_scan (cfg : Config) (now : ℚ) (st : BotState) : BotState :=
  st.active_trades.foldl (fun s p => exitStep cfg now s p.1 p.2) st

/-- The State Store removal underlying trade exit (src/main.py:262 and
285-287): `del state.active_trades[asset]` is executed only for assets
present in the iterated snapshot, so for an asset with a trade the trade
is returned and deleted, and for an asset without one the cycle performs
no operation on it — an absent result, never an exception. -/
def exit_trade (trades : List (String × ActiveTrade)) (asset : String) :
    Option ActiveTrade × List (String × ActiveTrade) :=
  match dictLookup trades asset with
  | some t => (some t, dictRemove trades asset)
  | none => (none, trades)

/-- Repeated `market_scanner` cycles from startup: the store after a
sequence of discovery scans, each with its own fetched market list. -/
def market_scans (cfg : Config) (scans : List (List RawMarket)) : BotState :=
  scans.foldl (fun s ms => market_scanner_scan cfg ms s) init_state

/-- Externally visible call and lock events of one worker cycle, in
program order: lock acquisition, lock release, an Execution Gateway call
(`place_buy`/`place_sell`), a market-data network call
(`fetch_active_markets`/`fetch_prices`). -/
inductive Ev where
  | acq : Ev
  | rel : Ev
  | gw : Ev
  | net : Ev
deriving DecidableEq

/-- Gateway calls made by `spike_detector` for one asset: `place_buy` is
invoked exactly when the guard chain passes (src/main.py:243). -/
def spikeStepEvents (cfg : Config) (now : ℚ) (st : BotState) (asset : String)
    (history : List ℚ) : List Ev :=
  if spikeEntryCond cfg now st asset history then [Ev.gw] else []

/-- The state-and-events fold of one `spike_detector` cycle. -/
def spikeFold (cfg : Config) (now : ℚ) (items : List (String × List ℚ))
    (acc : BotState × List Ev) : BotState × List Ev :=
  items.foldl
    (fun a p =>
      (spikeStep cfg now a.1 p.1 p.2, a.2 ++ spikeStepEvents cfg now a.1 p.1 p.2))
    acc

/-- Events of one `spike_detector` cycle (src/main.py:226-252): the lock
is acquired (line 228), then per asset possibly a `place_buy` call (line
243), then the lock is released when the `with` block ends (line 250). -/
def spike_detector_cycle_events (cfg : Config) (now : ℚ) (st : BotState) :
    List Ev :=
  [Ev.acq] ++ (spikeFold cfg now st.price_history (st, [])).2 ++ [Ev.rel]

/-- Gateway calls made by `exit_manager` for one trade: `place_sell` is
invoked exactly when an exit reason is selected (src/main.py:285-286). -/
def exitStepEvents (cfg : Config) (now : ℚ) (st : BotState) (asset : String)
    (trade : ActiveTrade) : List Ev :=
  if (exitStepReason cfg now st asset trade).isSome then [Ev.gw] else []

/-- The state-and-events fold of one `exit_manager` cycle. -/
def exitFold (cfg : Config) (now : ℚ) (items : List (String × ActiveTrade))
    (acc : BotState × List Ev) : BotState × List Ev :=
  items.foldl
    (fun a p =>
      (exitStep cfg now a.1 p.1 p.2, a.2 ++ exitStepEvents cfg now a.1 p.1 p.2))
    acc

/-- Events of one `exit_manager` cycle (src/main.py:258-293): the lock is
acquired (line 261), then per trade possibly a `place_sell` call (line
286), then the lock is released (line 291). -/
def exit_manager_cycle_events (cfg : Config) (now : ℚ) (st : BotState) :
    List Ev :=
  [Ev.acq] ++ (exitFold cfg now st.active_trades (st, [])).2 ++ [Ev.rel]

/-- Events of one `market_scanner` cycle (src/main.py:149-184): the
`fetch_active_markets` network call (line 152) precedes the lock
acquisition (line 153); no gateway call is made. -/
def market_scanner_cycle_events : List Ev := [Ev.net, Ev.acq, Ev.rel]

/-- Events of one `price_updater` cycle (src/main.py:186-197): the
`fetch_prices` network call (line 189) precedes the lock acquisition
(line 190); no gateway call is made. -/
def price_updater_cycle_events : List Ev := [Ev.net, Ev.acq, Ev.rel]

/-- For each gateway or market-data call event of a trace, the state of
the store lock at the moment of the call; the second argument is the lock
state on entry to the trace. -/
def heldFlags : List Ev → Bool → List Bool
  | [], _ => []
  | Ev.acq :: r, _ => heldFlags r true
  | Ev.rel :: r, _ => heldFlags r false
  | Ev.gw :: r, b => b :: heldFlags r b
  | Ev.net :: r, b => b :: heldFlags r b

/-- The per-asset invariant of the active-trade table: at most one trade
per asset key and the open-trade count within the configured cap. -/
def TradesInv (cfg : Config) (st : BotState) : Prop :=
  (dictKeys st.active_trades).Nodup ∧
  st.active_trades.length ≤ cfg.max_concurrent_trades

/-- A concrete configuration used to instantiate the theorems: spike
threshold 10%, history capacity 5, no minimum liquidity, cooldown 60,
at most 2 concurrent trades, trade size 100, holding limit 3600, no
optional profit/loss thresholds, paper mode. -/
def cfg0 : Config :=
  { spike_threshold := 1/10, price_history_size := 5, min_liquidity := 0,
    cooldown_seconds := 60, max_concurrent_trades := 2,
    trade_size_usdc := 100, holding_time_limit := 3600,
    pct_profit := none, cash_profit := none, pct_loss := none,
    cash_loss := none, paper_trading := true }

/-- The configuration of the spec's exit-priority scenario: percentage
take-profit 3%, cash stop-loss -$50, the other two thresholds absent. -/
def cfgScenario : Config :=
  { spike_threshold := 1/10, price_history_size := 5, min_liquidity := 0,
    cooldown_seconds := 60, max_concurrent_trades := 2,
    trade_size_usdc := 100, holding_time_limit := 3600,
    pct_profit := some (3/100), cash_profit := none, pct_loss := none,
    cash_loss := some (-50), paper_trading := true }

/-- A market with two outcome tokens and liquidity 5. -/
def mAB : RawMarket := { tokens := ["a", "b"], liquidity := 5 }

/-- A store tracking one asset whose history shows a 100% rise. -/
def stSpike : BotState :=
  { market_pairs := [], price_history := [("a", [1, 2])],
    active_trades := [], cooldowns := [] }

/-- A store holding one open trade entered at price 10 and time 0, with
the current price at 10.5. -/
def stExit : BotState :=
  { market_pairs := [], price_history := [("a", [10, 21/2])],
    active_trades := [("a", { asset := "a", entry_price := 10, entry_time := 0 })],
    cooldowns := [("a", 0)] }

/-- The entry preconditions of the spike detector, stated as
propositions: delta defined and at least the spike threshold, no existing
ActiveTrade, cooldown elapsed since the asset's last cooldown timestamp
(0 when the asset has none), open-trade count strictly below the cap, and
the gateway buy reporting success. -/
def EntryConditions (cfg : Config) (now : ℚ) (st : BotState) (asset : String)
    (history : List ℚ) : Prop :=
  (∃ δ, compute_delta history = some δ ∧ cfg.spike_threshold ≤ δ) ∧
  dictLookup st.active_trades asset = none ∧
  cfg.cooldown_seconds ≤ now - ((dictLookup st.cooldowns asset).getD 0) ∧
  st.active_trades.length < cfg.max_concurrent_trades ∧
  place_buy cfg.paper_trading asset = true

/-- States of the store reachable from startup by any interleaving of
whole worker cycles, with arbitrary fetched data and clock readings. -/
inductive Reachable (cfg : Config) : BotState → Prop where
  | init : Reachable cfg init_state
  | market (st : BotState) (markets : List RawMarket) :
      Reachable cfg st → Reachable cfg (market_scanner_scan cfg markets st)
  | price (st : BotState) (prices : List (String × ℚ)) :
      Reachable cfg st → Reachable cfg (price_updater_scan cfg prices st)
  | spike (st : BotState) (now : ℚ) :
      Reachable cfg st → Reachable cfg (spike_detector_scan cfg now st)
  | exits (st : BotState) (now : ℚ) :
      Reachable cfg st → Reachable cfg (exit_manager_scan cfg now st)

/-! Association-list lemmas for the Python-dict embedding. -/

theorem dictLookup_eq_none_iff {α : Type} (d : List (String × α)) (k : String) :
    dictLookup d k = none ↔ ∀ p ∈ d, p.1 ≠ k := by
  simp only [dictLookup, Option.map_eq_none', List.find?_eq_none, beq_iff_eq]

theorem dictKeys_not_mem_iff {α : Type} (d : List (String × α)) (k : String) :
    k ∉ dictKeys d ↔ ∀ p ∈ d, p.1 ≠ k := by
  simp only [dictKeys, List.mem_map, not_exists]
  constructor
  · intro h p hp hk
    exact h p ⟨hp, hk⟩
  · intro h p hp
    exact h p hp.1 hp.2

theorem dictInsert_of_none {α : Type} {d : List (String × α)} {k : String}
    (v : α) (h : dictLookup d k = none) : dictInsert d k v = d ++ [(k, v)] := by
  have hf : d.find? (fun p => p.1 == k) = none := by
    simpa [dictLookup, Option.map_eq_none'] using h
  simp [dictInsert, hf]

theorem dictLookup_append_right {α : Type} (d : List (String × α))
    (k : String) (v : α) (h : dictLookup d k = none) :
    dictLookup (d ++ [(k, v)]) k = some v := by
  have hf : d.find? (fun p => p.1 == k) = none := by
    simpa [dictLookup, Option.map_eq_none'] using h
  simp [dictLookup, List.find?_append, hf]

theorem dictLookup_map_replace {α : Type} (d : List (String × α)) (k : String)
    (v : α) (h : (d.find? (fun p => p.1 == k)).isSome) :
    dictLookup (d.map (fun p => if p.1 == k then (k, v) else p)) k = some v := by
  induction d with
  | nil => simp at h
  | cons p d ih =>
      by_cases hp : (p.1 == k) = true
      · rw [List.map_cons, if_pos hp]
        simp only [dictLookup]
        rw [List.find?_cons_of_pos _ (by simp)]
        rfl
      · rw [List.map_cons, if_neg hp]
        have hp' : (p.1 == k) = false := by simpa using hp
        have h' : (d.find? (fun p => p.1 == k)).isSome = true := by
          simpa [List.find?_cons, hp'] using h
        simpa [dictLookup, List.find?_cons, hp'] using ih h'

theorem dictLookup_insert_self {α : Type} (d : List (String × α)) (k : String)
    (v : α) : dictLookup (dictInsert d k v) k = some v := by
  unfold dictInsert
  by_cases hf : (d.find? (fun p => p.1 == k)).isSome = true
  · simp only [hf, if_true]
    exact dictLookup_map_replace d k v hf
  · have hn : d.find? (fun p => p.1 == k) = none :=
      Option.not_isSome_iff_eq_none.mp hf
    have hl : dictLookup d k = none := by simp [dictLookup, hn]
    simp only [hn, Option.isSome_none, Bool.false_eq_true, if_false]
    exact dictLookup_append_right d k v hl

theorem dictRemove_lookup_self {α : Type} (d : List (String × α)) (k : String) :
    dictLookup (dictRemove d k) k = none := by
  rw [dictLookup_eq_none_iff]
  intro p hp
  have := List.of_mem_filter hp
  simpa using this

theorem dictRemove_length_le {α : Type} (d : List (String × α)) (k : String) :
    (dictRemove d k).length ≤ d.length :=
  List.length_filter_le _ _

theorem dictKeys_remove_sublist {α : Type} (d : List (String × α)) (k : String) :
    (dictKeys (dictRemove d k)).Sublist (dictKeys d) :=
  (List.filter_sublist d).map Prod.fst

/-! Ring-buffer behaviour of the price history. -/

theorem appendCap_drop (cap : Nat) (l : List ℚ) (p : ℚ) :
    appendCap cap (l.drop (l.length - cap)) p =
      (l ++ [p]).drop (l.length + 1 - cap) := by
  simp only [appendCap]
  rw [← List.drop_append_of_le_length (show l.length - cap ≤ l.length by omega)]
  rw [List.drop_drop]
  simp only [List.length_drop, List.length_append, List.length_singleton]
  congr 1
  omega

theorem foldl_appendCap (cap : Nat) (ps : List ℚ) :
    ps.foldl (appendCap cap) [] = ps.drop (ps.length - cap) := by
  induction ps using List.reverseRecOn with
  | nil => simp
  | append_singleton qs p ih =>
      rw [List.foldl_append, List.foldl_cons, List.foldl_nil, ih]
      simpa using appendCap_drop cap qs p

/-- C4: for every sequence of samples appended to one asset's history,
the stored length never exceeds the capacity at any point of the
sequence, the final content is exactly the last `capacity` samples in
arrival order (oldest evicted first), and `append_price` performs exactly
this capped append on the asset's stored history. -/
theorem history_capacity_spec (cap : Nat) (ps : List ℚ) :
    (∀ n : Nat, ((ps.take n).foldl (appendCap cap) []).length ≤ cap) ∧
    ps.foldl (appendCap cap) [] = ps.drop (ps.length - cap) ∧
    (∀ (cfg : Config) (st : BotState) (asset : String) (price : ℚ)
        (h : List ℚ),
      dictLookup st.price_history asset = some h →
      dictLookup (append_price cfg st asset price).price_history asset =
        some (appendCap cfg.price_history_size h price)) := by
  refine ⟨?_, foldl_appendCap cap ps, ?_⟩
  · intro n
    rw [foldl_appendCap]
    have h1 := List.length_drop ((ps.take n).length - cap) (ps.take n)
    omega
  · intro cfg st asset price h hl
    unfold append_price
    rw [hl]
    exact dictLookup_insert_self _ _ _

/-- Witness for the capped-append part of the capacity theorem at a
concrete store. -/
theorem history_capacity_spec_witness :
    dictLookup stSpike.price_history "a" = some [1, 2] ∧
    dictLookup (append_price cfg0 stSpike "a" 3).price_history "a" =
      some (appendCap cfg0.price_history_size [1, 2] 3) := by
  have hl : dictLookup stSpike.price_history "a" = some [1, 2] := by
    simp [stSpike, dictLookup]
  exact ⟨hl, (history_capacity_spec cfg0.price_history_size []).2.2
    cfg0 stSpike "a" 3 [1, 2] hl⟩

/-- C5: the delta is `(latest - previous) / previous` over the two most
recent samples, and is no signal (`none`, not an error) when fewer than
two samples exist or the earlier of the two is not strictly positive;
history `[1, 1.10]` yields `0.10`, `[0]` and `[0, 1]` yield no signal. -/
theorem compute_delta_spec :
    (∀ (l : List ℚ) (p c : ℚ),
      compute_delta (l ++ [p, c]) = if p ≤ 0 then none else some ((c - p) / p)) ∧
    (∀ h : List ℚ, h.length < 2 → compute_delta h = none) ∧
    compute_delta [1, 11/10] = some (1/10) ∧
    compute_delta [0] = none ∧
    compute_delta [0, 1] = none := by
  refine ⟨?_, ?_, by norm_num [compute_delta], rfl, by norm_num [compute_delta]⟩
  · intro l p c
    simp [compute_delta, List.reverse_append]
  · intro h hlen
    match h with
    | [] => rfl
    | [a] => rfl
    | a :: b :: t => simp at hlen; omega

/-- Witness for the short-history part of the delta theorem. -/
theorem compute_delta_spec_witness :
    ([(0 : ℚ)].length < 2) ∧ compute_delta [0] = none :=
  ⟨by norm_num, compute_delta_spec.2.1 [0] (by norm_num)⟩

/-! Spike-detector entry characterization. -/

theorem compute_delta_getLast {history : List ℚ} {δ : ℚ}
    (h : compute_delta history = some δ) : ∃ c, history.getLast? = some c := by
  unfold compute_delta at h
  rcases hr : history.reverse with _ | ⟨c, t⟩
  · rw [hr] at h; simp at h
  · rcases t with _ | ⟨p, t'⟩
    · rw [hr] at h; simp at h
    · refine ⟨c, ?_⟩
      rw [← List.head?_reverse, hr]
      rfl

theorem spikeEntryCond_iff (cfg : Config) (now : ℚ) (st : BotState)
    (asset : String) (history : List ℚ) :
    spikeEntryCond cfg now st asset history = true ↔
      EntryConditions cfg now st asset history := by
  unfold spikeEntryCond EntryConditions
  rcases h : compute_delta history with _ | δ
  · simp [h]
  · simp [h, Bool.and_eq_true, decide_eq_true_eq, Option.isNone_iff_eq_none,
      place_buy, and_assoc]

/-- C1: for every asset scanned by the spike detector, a new ActiveTrade
is inserted iff the computed delta is defined and at least the spike
threshold, the asset has no existing ActiveTrade, the cooldown period has
elapsed since the asset's last cooldown timestamp, the open-trade count
is strictly below the maximum, and the gateway buy reports success; on
success the inserted trade has entry price `history[-1]` and entry time
`now`, and the asset's cooldown timestamp is set to `now` by the same
step. -/
theorem spike_entry_spec (cfg : Config) (now : ℚ) (st : BotState)
    (asset : String) (history : List ℚ) :
    (((dictLookup (spikeStep cfg now st asset history).active_trades asset).isSome ∧
        dictLookup st.active_trades asset = none) ↔
      EntryConditions cfg now st asset history) ∧
    (EntryConditions cfg now st asset history →
      ∃ lastp, history.getLast? = some lastp ∧
        dictLookup (spikeStep cfg now st asset history).active_trades asset =
          some { asset := asset, entry_price := lastp, entry_time := now } ∧
        dictLookup (spikeStep cfg now st asset history).cooldowns asset =
          some now) := by
  have hiff := spikeEntryCond_iff cfg now st asset history
  by_cases hc : spikeEntryCond cfg now st asset history = true
  · have hec := hiff.mp hc
    obtain ⟨⟨δ, hδ, _⟩, hnone, _, _, _⟩ := hec
    obtain ⟨lastp, hlast⟩ := compute_delta_getLast hδ
    have hstep : spikeStep cfg now st asset history =
        { st with
          active_trades := dictInsert st.active_trades asset
            { asset := asset, entry_price := lastp, entry_time := now }
          cooldowns := dictInsert st.cooldowns asset now } := by
      unfold spikeStep
      rw [if_pos hc]
      simp [place_buy, hlast]
    constructor
    · constructor
      · intro _
        exact hiff.mp hc
      · intro _
        refine ⟨?_, hnone⟩
        rw [hstep]
        simp [dictLookup_insert_self]
    · intro _
      refine ⟨lastp, hlast, ?_, ?_⟩
      · rw [hstep]
        simp [dictLookup_insert_self]
      · rw [hstep]
        simp [dictLookup_insert_self]
  · have hstep : spikeStep cfg now st asset history = st := by
      unfold spikeStep
      rw [if_neg hc]
    rw [hstep]
    constructor
    · constructor
      · rintro ⟨hs, hn⟩
        rw [hn] at hs
        simp at hs
      · intro hec
        exact absurd (hiff.mpr hec) hc
    · intro hec
      exact absurd (hiff.mpr hec) hc

/-- Witness: a concrete successful entry at time 100 on history `[1, 2]`
from the empty store. -/
theorem spike_entry_spec_witness :
    EntryConditions cfg0 100 init_state "a" [1, 2] ∧
    (∃ lastp, ([(1 : ℚ), 2].getLast? = some lastp) ∧
      dictLookup (spikeStep cfg0 100 init_state "a" [1, 2]).active_trades "a" =
        some { asset := "a", entry_price := lastp, entry_time := 100 } ∧
      dictLookup (spikeStep cfg0 100 init_state "a" [1, 2]).cooldowns "a" =
        some 100) := by
  have hec : EntryConditions cfg0 100 init_state "a" [1, 2] := by
    refine ⟨⟨1, by norm_num [compute_delta], by norm_num [cfg0]⟩, rfl, ?_, ?_, rfl⟩
    · norm_num [cfg0, dictLookup, init_state]
    · norm_num [cfg0, init_state]
  exact ⟨hec, (spike_entry_spec cfg0 100 init_state "a" [1, 2]).2 hec⟩

/-! Exit-reason priority. -/

theorem opt_ge_iff (o : Option ℚ) (x : ℚ) :
    ((o.map (fun t => decide (t ≤ x))).getD false = true) ↔
      ∃ t, o = some t ∧ t ≤ x := by
  cases o <;> simp

theorem opt_le_iff (o : Option ℚ) (x : ℚ) :
    ((o.map (fun t => decide (x ≤ t))).getD false = true) ↔
      ∃ t, o = some t ∧ x ≤ t := by
  cases o <;> simp

/-- C2: the exit reasons are tested in the fixed priority order pct
take-profit, cash take-profit, pct stop-loss, cash stop-loss, holding
time, first match winning; an unconfigured threshold never fires; and in
the spec's scenario (entry 10, price 10.5, pct take-profit 3%, cash
stop-loss -$50) the selected reason is `pct_profit`. -/
theorem exit_priority_spec (cfg : Config) (p c h : ℚ) :
    (exit_reason cfg p c h = some "pct_profit" ↔
      (∃ t, cfg.pct_profit = some t ∧ t ≤ p)) ∧
    (exit_reason cfg p c h = some "cash_profit" ↔
      ¬(∃ t, cfg.pct_profit = some t ∧ t ≤ p) ∧
      (∃ t, cfg.cash_profit = some t ∧ t ≤ c)) ∧
    (exit_reason cfg p c h = some "pct_loss" ↔
      ¬(∃ t, cfg.pct_profit = some t ∧ t ≤ p) ∧
      ¬(∃ t, cfg.cash_profit = some t ∧ t ≤ c) ∧
      (∃ t, cfg.pct_loss = some t ∧ p ≤ t)) ∧
    (exit_reason cfg p c h = some "cash_loss" ↔
      ¬(∃ t, cfg.pct_profit = some t ∧ t ≤ p) ∧
      ¬(∃ t, cfg.cash_profit = some t ∧ t ≤ c) ∧
      ¬(∃ t, cfg.pct_loss = some t ∧ p ≤ t) ∧
      (∃ t, cfg.cash_loss = some t ∧ c ≤ t)) ∧
    (exit_reason cfg p c h = some "time" ↔
      ¬(∃ t, cfg.pct_profit = some t ∧ t ≤ p) ∧
      ¬(∃ t, cfg.cash_profit = some t ∧ t ≤ c) ∧
      ¬(∃ t, cfg.pct_loss = some t ∧ p ≤ t) ∧
      ¬(∃ t, cfg.cash_loss = some t ∧ c ≤ t) ∧
      cfg.holding_time_limit ≤ h) ∧
    (cfg.pct_profit = none → exit_reason cfg p c h ≠ some "pct_profit") ∧
    (cfg.cash_profit = none → exit_reason cfg p c h ≠ some "cash_profit") ∧
    (cfg.pct_loss = none → exit_reason cfg p c h ≠ some "pct_loss") ∧
    (cfg.cash_loss = none → exit_reason cfg p c h ≠ some "cash_loss") ∧
    exitStepReason cfgScenario 30 stExit "a"
      { asset := "a", entry_price := 10, entry_time := 0 } = some "pct_profit" := by
  have k1 : exit_reason cfg p c h = some "pct_profit" ↔
      (∃ t, cfg.pct_profit = some t ∧ t ≤ p) := by
    unfold exit_reason
    split_ifs with h1 h2 h3 h4 h5 <;> simp_all [opt_ge_iff, opt_le_iff]
  have k2 : exit_reason cfg p c h = some "cash_profit" ↔
      ¬(∃ t, cfg.pct_profit = some t ∧ t ≤ p) ∧
      (∃ t, cfg.cash_profit = some t ∧ t ≤ c) := by
    unfold exit_reason
    split_ifs with h1 h2 h3 h4 h5 <;> simp_all [opt_ge_iff, opt_le_iff]
  have k3 : exit_reason cfg p c h = some "pct_loss" ↔
      ¬(∃ t, cfg.pct_profit = some t ∧ t ≤ p) ∧
      ¬(∃ t, cfg.cash_profit = some t ∧ t ≤ c) ∧
      (∃ t, cfg.pct_loss = some t ∧ p ≤ t) := by
    unfold exit_reason
    split_ifs with h1 h2 h3 h4 h5 <;> simp_all [opt_ge_iff, opt_le_iff]
  have k4 : exit_reason cfg p c h = some "cash_loss" ↔
      ¬(∃ t, cfg.pct_profit = some t ∧ t ≤ p) ∧
      ¬(∃ t, cfg.cash_profit = some t ∧ t ≤ c) ∧
      ¬(∃ t, cfg.pct_loss = some t ∧ p ≤ t) ∧
      (∃ t, cfg.cash_loss = some t ∧ c ≤ t) := by
    unfold exit_reason
    split_ifs with h1 h2 h3 h4 h5 <;> simp_all [opt_ge_iff, opt_le_iff]
  have k5 : exit_reason cfg p c h = some "time" ↔
      ¬(∃ t, cfg.pct_profit = some t ∧ t ≤ p) ∧
      ¬(∃ t, cfg.cash_profit = some t ∧ t ≤ c) ∧
      ¬(∃ t, cfg.pct_loss = some t ∧ p ≤ t) ∧
      ¬(∃ t, cfg.cash_loss = some t ∧ c ≤ t) ∧
      cfg.holding_time_limit ≤ h := by
    unfold exit_reason
    split_ifs with h1 h2 h3 h4 h5 <;> simp_all [opt_ge_iff, opt_le_iff]
  have hsc : exitStepReason cfgScenario 30 stExit "a"
      { asset := "a", entry_price := 10, entry_time := 0 } = some "pct_profit" := by
    norm_num [exitStepReason, stExit, dictLookup, exit_reason, cfgScenario]
  refine ⟨k1, k2, k3, k4, k5, ?_, ?_, ?_, ?_, hsc⟩
  · intro hn hcontra
    obtain ⟨t, ht, _⟩ := k1.mp hcontra
    rw [hn] at ht
    simp at ht
  · intro hn hcontra
    obtain ⟨t, ht, _⟩ := (k2.mp hcontra).2
    rw [hn] at ht
    simp at ht
  · intro hn hcontra
    obtain ⟨t, ht, _⟩ := (k3.mp hcontra).2.2
    rw [hn] at ht
    simp at ht
  · intro hn hcontra
    obtain ⟨t, ht, _⟩ := (k4.mp hcontra).2.2.2
    rw [hn] at ht
    simp at ht

/-- Witness: the unconfigured-threshold clause at the scenario
configuration, whose cash take-profit is absent. -/
theorem exit_priority_spec_witness :
    cfgScenario.cash_profit = none ∧
    exit_reason cfgScenario (1/20) 5 30 ≠ some "cash_profit" :=
  ⟨rfl, (exit_priority_spec cfgScenario (1/20) 5 30).2.2.2.2.2.2.1 rfl⟩

/-! Trade removal (exitTrade) behaviour. -/

/-- C7: removing a trade returns and deletes it when present; when absent
it is a no-op returning an absent result rather than raising; two
successive calls on the same asset return the trade once and absent the
second time, the store unchanged by the second call. -/
theorem exit_trade_spec (trades : List (String × ActiveTrade)) (asset : String) :
    (∀ t, dictLookup trades asset = some t →
      exit_trade trades asset = (some t, dictRemove trades asset) ∧
      dictLookup (exit_trade trades asset).2 asset = none) ∧
    (dictLookup trades asset = none → exit_trade trades asset = (none, trades)) ∧
    (∀ t, dictLookup trades asset = some t →
      (exit_trade trades asset).1 = some t ∧
      (exit_trade (exit_trade trades asset).2 asset).1 = none ∧
      (exit_trade (exit_trade trades asset).2 asset).2 =
        (exit_trade trades asset).2) := by
  refine ⟨?_, ?_, ?_⟩
  · intro t ht
    unfold exit_trade
    rw [ht]
    exact ⟨rfl, by simp [dictRemove_lookup_self]⟩
  · intro hn
    unfold exit_trade
    rw [hn]
  · intro t ht
    have hfst : exit_trade trades asset = (some t, dictRemove trades asset) := by
      unfold exit_trade
      rw [ht]
    have hsnd : dictLookup (dictRemove trades asset) asset = none :=
      dictRemove_lookup_self trades asset
    refine ⟨by rw [hfst], ?_, ?_⟩
    · rw [hfst]
      unfold exit_trade
      rw [hsnd]
    · rw [hfst]
      unfold exit_trade
      rw [hsnd]

/-- Witness: double removal on a one-trade store. -/
theorem exit_trade_spec_witness :
    dictLookup [("a", ActiveTrade.mk "a" 10 0)] "a" = some (ActiveTrade.mk "a" 10 0) ∧
    (exit_trade [("a", ActiveTrade.mk "a" 10 0)] "a").1 = some (ActiveTrade.mk "a" 10 0) ∧
    (exit_trade (exit_trade [("a", ActiveTrade.mk "a" 10 0)] "a").2 "a").1 = none ∧
    (exit_trade (exit_trade [("a", ActiveTrade.mk "a" 10 0)] "a").2 "a").2 =
      (exit_trade [("a", ActiveTrade.mk "a" 10 0)] "a").2 := by
  have hl : dictLookup [("a", ActiveTrade.mk "a" 10 0)] "a" =
      some (ActiveTrade.mk "a" 10 0) := by
    simp [dictLookup]
  have := (exit_trade_spec [("a", ActiveTrade.mk "a" 10 0)] "a").2.2
    (ActiveTrade.mk "a" 10 0) hl
  exact ⟨hl, this.1, this.2.1, this.2.2⟩

/-! Environment loading. -/

/-- C9: for a required value the loader fails when the variable is
missing or empty, fails when the value does not parse, and otherwise
returns the parsed value; an optional value that is missing or empty
yields the default. -/
theorem env_load_spec {α : Type} (name : String) (cast : String → Option α)
    (default : Option α) :
    (∀ v : Option String, (v = none ∨ v = some "") →
      env_load name v cast default true =
        .error ("Missing required env var: " ++ name)) ∧
    (∀ v : Option String, (v = none ∨ v = some "") →
      env_load name v cast default false = .ok default) ∧
    (∀ (s : String) (required : Bool), s ≠ "" → cast s = none →
      env_load name (some s) cast default required =
        .error ("Invalid value for " ++ name ++ ": " ++ s)) ∧
    (∀ (s : String) (x : α) (required : Bool), s ≠ "" → cast s = some x →
      env_load name (some s) cast default required = .ok (some x)) := by
  refine ⟨?_, ?_, ?_, ?_⟩
  · rintro v (rfl | rfl) <;> simp [env_load]
  · rintro v (rfl | rfl) <;> simp [env_load]
  · intro s required hs hc
    simp [env_load, hs, hc]
  · intro s x required hs hc
    simp [env_load, hs, hc]

/-- Witness: the loader at concrete inputs — a missing required value, an
unparseable value, and a parsed value. -/
theorem env_load_spec_witness :
    env_load "spike_threshold" none (fun _ => some (7 : Nat)) none true =
      .error ("Missing required env var: " ++ "spike_threshold") ∧
    env_load "spike_threshold" (some "x") (fun _ => (none : Option Nat)) none true =
      .error ("Invalid value for " ++ "spike_threshold" ++ ": " ++ "x") ∧
    env_load "spike_threshold" (some "7") (fun _ => some (7 : Nat)) none true =
      .ok (some 7) := by
  refine ⟨?_, ?_, ?_⟩
  · exact (env_load_spec "spike_threshold" (fun _ => some (7 : Nat)) none).1
      none (Or.inl rfl)
  · exact (env_load_spec "spike_threshold" (fun _ => (none : Option Nat)) none).2.2.1
      "x" true (by simp) rfl
  · exact (env_load_spec "spike_threshold" (fun _ => some (7 : Nat)) none).2.2.2
      "7" 7 true (by simp) rfl

/-! Gateway stubs and unreachable failure branches. -/

/-- C10: `place_buy` and `place_sell` return `True` unconditionally in
both paper and live mode, so the gateway-failure branches of the spike
detector and exit manager never execute: whenever the entry guard chain
passes the trade is recorded, and whenever an exit reason is selected the
trade is removed. -/
theorem gateway_always_succeeds :
    (∀ (paper : Bool) (asset : String), place_buy paper asset = true) ∧
    (∀ (paper : Bool) (asset : String), place_sell paper asset = true) ∧
    (∀ (cfg : Config) (now : ℚ) (st : BotState) (asset : String)
        (history : List ℚ),
      spikeEntryCond cfg now st asset history = true →
      (dictLookup (spikeStep cfg now st asset history).active_trades asset).isSome =
        true) ∧
    (∀ (cfg : Config) (now : ℚ) (st : BotState) (asset : String)
        (trade : ActiveTrade),
      (exitStepReason cfg now st asset trade).isSome = true →
      dictLookup (exitStep cfg now st asset trade).active_trades asset = none) := by
  refine ⟨fun _ _ => rfl, fun _ _ => rfl, ?_, ?_⟩
  · intro cfg now st asset history hc
    unfold spikeStep
    rw [if_pos hc]
    simp [place_buy, dictLookup_insert_self]
  · intro cfg now st asset trade hr
    unfold exitStep
    rcases h : exitStepReason cfg now st asset trade with _ | r
    · rw [h] at hr
      simp at hr
    · simp [place_sell, dictRemove_lookup_self]

/-- Witness: the success branches taken at concrete inputs. -/
theorem gateway_always_succeeds_witness :
    (dictLookup (spikeStep cfg0 100 init_state "a" [1, 2]).active_trades "a").isSome =
      true ∧
    dictLookup (exitStep cfgScenario 30 stExit "a"
      { asset := "a", entry_price := 10, entry_time := 0 }).active_trades "a" =
      none := by
  constructor
  · exact gateway_always_succeeds.2.2.1 cfg0 100 init_state "a" [1, 2]
      ((spikeEntryCond_iff cfg0 100 init_state "a" [1, 2]).mpr
        (by
          refine ⟨⟨1, by norm_num [compute_delta], by norm_num [cfg0]⟩, rfl, ?_, ?_, rfl⟩
          · norm_num [cfg0, dictLookup, init_state]
          · norm_num [cfg0, init_state]))
  · exact gateway_always_succeeds.2.2.2 cfgScenario 30 stExit "a"
      { asset := "a", entry_price := 10, entry_time := 0 }
      (by norm_num [exitStepReason, stExit, dictLookup, exit_reason, cfgScenario])

/-! Trade-table invariant over all reachable states. -/

theorem upsert_market_active (cfg : Config) (st : BotState) (m : RawMarket) :
    (upsert_market cfg st m).active_trades = st.active_trades := by
  unfold upsert_market
  split
  · split_ifs <;> rfl
  · rfl

theorem market_scan_active (cfg : Config) (markets : List RawMarket)
    (st : BotState) :
    (market_scanner_scan cfg markets st).active_trades = st.active_trades := by
  unfold market_scanner_scan
  induction markets generalizing st with
  | nil => rfl
  | cons m ms ih => rw [List.foldl_cons, ih, upsert_market_active]

theorem append_price_active (cfg : Config) (st : BotState) (asset : String)
    (price : ℚ) :
    (append_price cfg st asset price).active_trades = st.active_trades := by
  unfold append_price
  split <;> rfl

theorem price_scan_active (cfg : Config) (prices : List (String × ℚ))
    (st : BotState) :
    (price_updater_scan cfg prices st).active_trades = st.active_trades := by
  unfold price_updater_scan
  induction prices generalizing st with
  | nil => rfl
  | cons p ps ih => rw [List.foldl_cons, ih, append_price_active]

theorem spikeStep_inv (cfg : Config) (now : ℚ) (st : BotState) (asset : String)
    (history : List ℚ) (h : TradesInv cfg st) :
    TradesInv cfg (spikeStep cfg now st asset history) := by
  unfold spikeStep
  by_cases hc : spikeEntryCond cfg now st asset history = true
  · rw [if_pos hc]
    simp only [place_buy, if_true]
    obtain ⟨hnd, hlen⟩ := h
    obtain ⟨_, hnone, _, hcount, _⟩ :=
      (spikeEntryCond_iff cfg now st asset history).mp hc
    have hins := dictInsert_of_none
      { asset := asset, entry_price := (history.getLast?).getD 0,
        entry_time := now } hnone
    have hmem : asset ∉ dictKeys st.active_trades :=
      (dictKeys_not_mem_iff _ _).mpr ((dictLookup_eq_none_iff _ _).mp hnone)
    unfold TradesInv
    simp only [hins, dictKeys, List.map_append, List.map_cons, List.map_nil,
      List.length_append, List.length_cons, List.length_nil]
    constructor
    · refine List.Nodup.append ?_ (List.nodup_singleton _) ?_
      · simpa [dictKeys] using hnd
      · intro x hx hx'
        rw [List.mem_singleton] at hx'
        subst hx'
        exact hmem (by simpa [dictKeys] using hx)
    · omega
  · rw [if_neg hc]
    exact h

theorem exitStep_inv (cfg : Config) (now : ℚ) (st : BotState) (asset : String)
    (trade : ActiveTrade) (h : TradesInv cfg st) :
    TradesInv cfg (exitStep cfg now st asset trade) := by
  unfold exitStep
  rcases hr : exitStepReason cfg now st asset trade with _ | r
  · exact h
  · simp only [place_sell, if_true]
    obtain ⟨hnd, hlen⟩ := h
    exact ⟨(dictKeys_remove_sublist _ _).nodup hnd,
      le_trans (dictRemove_length_le _ _) hlen⟩

theorem foldl_spike_inv (cfg : Config) (now : ℚ)
    (items : List (String × List ℚ)) :
    ∀ st : BotState, TradesInv cfg st →
      TradesInv cfg (items.foldl (fun s p => spikeStep cfg now s p.1 p.2) st) := by
  induction items with
  | nil => intro st h; exact h
  | cons p ps ih =>
      intro st h
      rw [List.foldl_cons]
      exact ih _ (spikeStep_inv _ _ _ _ _ h)

theorem foldl_exit_inv (cfg : Config) (now : ℚ)
    (items : List (String × ActiveTrade)) :
    ∀ st : BotState, TradesInv cfg st →
      TradesInv cfg (items.foldl (fun s p => exitStep cfg now s p.1 p.2) st) := by
  induction items with
  | nil => intro st h; exact h
  | cons p ps ih =>
      intro st h
      rw [List.foldl_cons]
      exact ih _ (exitStep_inv _ _ _ _ _ h)

/-- C6: in every reachable state of the store, the keys of the
active-trade table are pairwise distinct (at most one ActiveTrade per
asset) and the open-trade count is at most the configured maximum; every
worker cycle preserves this. -/
theorem reachable_trades_invariant (cfg : Config) (st : BotState)
    (h : Reachable cfg st) :
    (dictKeys st.active_trades).Nodup ∧
    st.active_trades.length ≤ cfg.max_concurrent_trades := by
  have hinv : TradesInv cfg st := by
    induction h with
    | init => exact ⟨List.nodup_nil, Nat.zero_le _⟩
    | market st' markets hr ih =>
        unfold TradesInv at ih ⊢
        rw [market_scan_active]
        exact ih
    | price st' prices hr ih =>
        unfold TradesInv at ih ⊢
        rw [price_scan_active]
        exact ih
    | spike st' now hr ih =>
        exact foldl_spike_inv cfg now st'.price_history st' ih
    | exits st' now hr ih =>
        exact foldl_exit_inv cfg now st'.active_trades st' ih
  exact hinv

/-- Witness: the invariant at a reachable state built from one discovery
scan followed by one spike-detection cycle. -/
theorem reachable_trades_invariant_witness :
    (dictKeys (spike_detector_scan cfg0 100
        (market_scanner_scan cfg0 [mAB] init_state)).active_trades).Nodup ∧
    (spike_detector_scan cfg0 100
        (market_scanner_scan cfg0 [mAB] init_state)).active_trades.length ≤
      cfg0.max_concurrent_trades :=
  reachable_trades_invariant cfg0 _
    (Reachable.spike _ 100 (Reachable.market _ [mAB] Reachable.init))

/-! Lock discipline of the worker cycles. -/

theorem heldFlags_all_gw (l : List Ev) (hl : ∀ e ∈ l, e = Ev.gw)
    (r : List Ev) (b : Bool) :
    heldFlags (l ++ r) b =
      List.replicate l.length b ++ heldFlags r b := by
  induction l with
  | nil => simp
  | cons e t ih =>
      have he := hl e (List.mem_cons_self _ _)
      subst he
      rw [List.cons_append]
      show b :: heldFlags (t ++ r) b = _
      rw [ih (fun x hx => hl x (List.mem_cons_of_mem _ hx))]
      simp [List.replicate_succ]

theorem spikeFold_events_gw (cfg : Config) (now : ℚ)
    (items : List (String × List ℚ)) :
    ∀ (st : BotState) (acc : List Ev), (∀ e ∈ acc, e = Ev.gw) →
      ∀ e ∈ (spikeFold cfg now items (st, acc)).2, e = Ev.gw := by
  unfold spikeFold
  induction items with
  | nil => intro st acc hacc; simpa using hacc
  | cons p ps ih =>
      intro st acc hacc
      rw [List.foldl_cons]
      refine ih _ _ ?_
      intro e he
      rcases List.mem_append.mp he with h1 | h2
      · exact hacc e h1
      · unfold spikeStepEvents at h2
        by_cases hc : spikeEntryCond cfg now st p.1 p.2 = true
        · rw [if_pos hc] at h2
          simpa using h2
        · rw [if_neg hc] at h2
          simp at h2

theorem exitFold_events_gw (cfg : Config) (now : ℚ)
    (items : List (String × ActiveTrade)) :
    ∀ (st : BotState) (acc : List Ev), (∀ e ∈ acc, e = Ev.gw) →
      ∀ e ∈ (exitFold cfg now items (st, acc)).2, e = Ev.gw := by
  unfold exitFold
  induction items with
  | nil => intro st acc hacc; simpa using hacc
  | cons p ps ih =>
      intro st acc hacc
      rw [List.foldl_cons]
      refine ih _ _ ?_
      intro e he
      rcases List.mem_append.mp he with h1 | h2
      · exact hacc e h1
      · unfold exitStepEvents at h2
        by_cases hc : (exitStepReason cfg now st p.1 p.2).isSome = true
        · rw [if_pos hc] at h2
          simpa using h2
        · rw [if_neg hc] at h2
          simp at h2

/-- C3 counterexample: at a concrete store where the spike detector
enters a trade, the `place_buy` gateway call is executed while the store
lock is held — contradicting the claim that no gateway call ever happens
under the lock. -/
theorem gateway_under_lock_counterexample :
    true ∈ heldFlags (spike_detector_cycle_events cfg0 100 stSpike) false := by
  norm_num [spike_detector_cycle_events, spikeFold, spikeStepEvents,
    spikeEntryCond, compute_delta, stSpike, dictLookup, cfg0, heldFlags]

/-- C3 amended: the market-data network calls of the market scanner and
price updater occur before lock acquisition, outside the lock; but every
Execution Gateway buy/sell call of the spike detector and exit manager is
executed while the State Store lock is held. -/
theorem lock_discipline (cfg : Config) (now : ℚ) (st : BotState) :
    true ∉ heldFlags market_scanner_cycle_events false ∧
    true ∉ heldFlags price_updater_cycle_events false ∧
    false ∉ heldFlags (spike_detector_cycle_events cfg now st) false ∧
    false ∉ heldFlags (exit_manager_cycle_events cfg now st) false := by
  refine ⟨by decide, by decide, ?_, ?_⟩
  · unfold spike_detector_cycle_events
    show false ∉ heldFlags
      ((spikeFold cfg now st.price_history (st, [])).2 ++ [Ev.rel]) true
    rw [heldFlags_all_gw _
      (spikeFold_events_gw cfg now st.price_history st [] (by simp)) [Ev.rel] true]
    simp [heldFlags, List.mem_replicate]
  · unfold exit_manager_cycle_events
    show false ∉ heldFlags
      ((exitFold cfg now st.active_trades (st, [])).2 ++ [Ev.rel]) true
    rw [heldFlags_all_gw _
      (exitFold_events_gw cfg now st.active_trades st [] (by simp)) [Ev.rel] true]
    simp [heldFlags, List.mem_replicate]

/-! Staleness of price-history keys across discovery scans. -/

theorem dictKeys_setdefault_sub {α : Type} (d : List (String × α)) (k : String)
    (v : α) (x : String) (hx : x ∈ dictKeys (dictSetdefault d k v)) :
    x ∈ dictKeys d ∨ x = k := by
  unfold dictSetdefault at hx
  by_cases hf : (d.find? (fun p => p.1 == k)).isSome = true
  · rw [if_pos hf] at hx
    exact Or.inl hx
  · rw [if_neg hf] at hx
    unfold dictKeys at hx
    rw [List.map_append] at hx
    rcases List.mem_append.mp hx with h1 | h2
    · exact Or.inl h1
    · right
      simpa using h2

theorem upsert_market_history_keys (cfg : Config) (st : BotState)
    (m : RawMarket) (asset : String)
    (hx : asset ∈ dictKeys (upsert_market cfg st m).price_history) :
    asset ∈ dictKeys st.price_history ∨ (qualifies cfg m ∧ asset ∈ m.tokens) := by
  unfold upsert_market at hx
  rcases htok : m.tokens with _ | ⟨y, _ | ⟨n, _ | ⟨z, r⟩⟩⟩
  · simp only [htok] at hx
    exact Or.inl hx
  · simp only [htok] at hx
    exact Or.inl hx
  · simp only [htok] at hx
    by_cases hliq : m.liquidity < cfg.min_liquidity
    · rw [if_pos hliq] at hx
      exact Or.inl hx
    · rw [if_neg hliq] at hx
      rcases dictKeys_setdefault_sub _ _ _ _ hx with h1 | h1
      · rcases dictKeys_setdefault_sub _ _ _ _ h1 with h2 | h2
        · exact Or.inl h2
        · refine Or.inr ⟨⟨?_, le_of_not_lt hliq⟩, ?_⟩
          · rw [htok]
            rfl
          · rw [h2]
            simp
      · refine Or.inr ⟨⟨?_, le_of_not_lt hliq⟩, ?_⟩
        · rw [htok]
          rfl
        · rw [h1]
          simp
  · simp only [htok] at hx
    exact Or.inl hx

theorem market_scan_history_keys (cfg : Config) (markets : List RawMarket) :
    ∀ (st : BotState) (asset : String),
      asset ∈ dictKeys (market_scanner_scan cfg markets st).price_history →
      asset ∈ dictKeys st.price_history ∨
        ∃ m ∈ markets, qualifies cfg m ∧ asset ∈ m.tokens := by
  unfold market_scanner_scan
  induction markets with
  | nil => intro st asset hx; exact Or.inl hx
  | cons m ms ih =>
      intro st asset hx
      rw [List.foldl_cons] at hx
      rcases ih _ _ hx with h1 | ⟨m', hm', hq⟩
      · rcases upsert_market_history_keys cfg st m asset h1 with h2 | h2
        · exact Or.inl h2
        · exact Or.inr ⟨m, List.mem_cons_self _ _, h2⟩
      · exact Or.inr ⟨m', List.mem_cons_of_mem _ hm', hq⟩

theorem market_scans_history_keys_aux (cfg : Config)
    (scans : List (List RawMarket)) :
    ∀ (st : BotState) (asset : String),
      asset ∈ dictKeys
        ((scans.foldl (fun s ms => market_scanner_scan cfg ms s) st)).price_history →
      asset ∈ dictKeys st.price_history ∨
        ∃ ms ∈ scans, ∃ m ∈ ms, qualifies cfg m ∧ asset ∈ m.tokens := by
  induction scans with
  | nil => intro st asset hx; exact Or.inl hx
  | cons sc scs ih =>
      intro st asset hx
      rw [List.foldl_cons] at hx
      rcases ih _ _ hx with h1 | ⟨ms', hms', hq⟩
      · rcases market_scan_history_keys cfg sc st asset h1 with h2 | h2
        · exact Or.inl h2
        · exact Or.inr ⟨sc, List.mem_cons_self _ _, h2⟩
      · exact Or.inr ⟨ms', List.mem_cons_of_mem _ hms', hq⟩

/-- C8 counterexample: after a first discovery scan inserting market
`mAB` and a second scan returning no markets, asset `"a"` is still a
price-history key although no market of the last scan is live and
qualifying — the claim as stated fails. -/
theorem stale_history_counterexample :
    "a" ∈ dictKeys (market_scans cfg0 [[mAB], []]).price_history ∧
    ¬ ∃ m ∈ (([[mAB], []] : List (List RawMarket)).getLast?.getD []),
        qualifies cfg0 m ∧ "a" ∈ m.tokens := by
  constructor
  · norm_num [market_scans, market_scanner_scan, upsert_market, dictSetdefault,
      dictKeys, mAB, cfg0, init_state, (by decide : ("a" : String) ≠ "b")]
  · rintro ⟨m, hm, -⟩
    have hlast : (([[mAB], []] : List (List RawMarket)).getLast?.getD []) =
        ([] : List RawMarket) := rfl
    rw [hlast] at hm
    exact absurd hm (List.not_mem_nil m)

/-- C8 amended: every asset identifier present as a price-history key was
a token of a market that was live and passed the liquidity filter in some
(not necessarily the most recent) discovery scan; stale keys are never
evicted. -/
theorem history_keys_from_some_scan (cfg : Config)
    (scans : List (List RawMarket)) (asset : String)
    (hx : asset ∈ dictKeys (market_scans cfg scans).price_history) :
    ∃ ms ∈ scans, ∃ m ∈ ms, qualifies cfg m ∧ asset ∈ m.tokens := by
  rcases market_scans_history_keys_aux cfg scans init_state asset hx with h | h
  · simp [init_state, dictKeys] at h
  · exact h

/-- Witness: the key `"a"` after a single scan traces back to market
`mAB` of that scan. -/
theorem history_keys_from_some_scan_witness :
    "a" ∈ dictKeys (market_scans cfg0 [[mAB]]).price_history ∧
    ∃ ms ∈ [[mAB]], ∃ m ∈ ms, qualifies cfg0 m ∧ "a" ∈ m.tokens := by
  have hx : "a" ∈ dictKeys (market_scans cfg0 [[mAB]]).price_history := by
    norm_num [market_scans, market_scanner_scan, upsert_market, dictSetdefault,
      dictKeys, mAB, cfg0, init_state, (by decide : ("a" : String) ≠ "b")]
  exact ⟨hx, history_keys_from_some_scan cfg0 [[mAB]] "a" hx⟩
